import Mathlib

/-!
Verification development for the web-archiver repository
(src/backend/archiver/basic_archiver.py, src/backend/app/main.py,
src/backend/app/schemas.py).

Strings are modelled as `List Char` (ASCII); bytes as `List Nat`.
The CPython `urllib.parse` functions the source calls (`urlsplit`,
`urlparse`, `urlunsplit`, `urljoin`, `urldefrag`, `quote`, `unquote`)
are embedded below, faithful on the ASCII inputs this development uses
(Python UTF-8-encodes non-ASCII text first; all URLs here are ASCII).
-/

namespace WebArchiver

def lowerL (cs : List Char) : List Char := cs.map Char.toLower

/-- Characters allowed in a URL scheme after the first (CPython `scheme_chars`). -/
def schemeChar (c : Char) : Bool :=
  c.isAlpha || c.isDigit || c = '+' || c = '-' || c = '.'

/-- Scheme parsing of CPython `urlsplit`: the part before the first ':' is the
scheme iff it is nonempty, starts with an ASCII letter and consists of scheme
characters; the scheme is lowercased.  Returns `(scheme, rest)`. -/
def splitScheme (cs : List Char) : List Char × List Char :=
  let pre := cs.takeWhile (fun c => c != ':')
  match cs.dropWhile (fun c => c != ':') with
  | ':' :: tail =>
    match pre with
    | [] => ([], cs)
    | c0 :: _ => if c0.isAlpha && pre.all schemeChar then (lowerL pre, tail) else ([], cs)
  | _ => ([], cs)

/-- A character that does not terminate the netloc (CPython `_splitnetloc`
stops at '/', '?' or '#'). -/
def notNetlocEnd (c : Char) : Bool := c != '/' && c != '?' && c != '#'

structure UrlSplit where
  scheme : List Char
  netloc : List Char
  path : List Char
  query : List Char
  fragment : List Char
deriving DecidableEq

/-- CPython `urllib.parse.urlsplit`: scheme, then (after '//') netloc up to
the first '/', '?' or '#', then the fragment after the first '#', then the
query after the first '?'. -/
def urlsplitL (cs : List Char) : UrlSplit :=
  let sr := splitScheme cs
  let scheme := sr.1
  let nr : List Char × List Char :=
    match sr.2 with
    | '/' :: '/' :: tail => (tail.takeWhile notNetlocEnd, tail.dropWhile notNetlocEnd)
    | other => ([], other)
  let netloc := nr.1
  let beforeFrag := nr.2.takeWhile (fun c => c != '#')
  let fragment : List Char :=
    match nr.2.dropWhile (fun c => c != '#') with
    | _ :: t => t
    | [] => []
  let path := beforeFrag.takeWhile (fun c => c != '?')
  let query : List Char :=
    match beforeFrag.dropWhile (fun c => c != '?') with
    | _ :: t => t
    | [] => []
  ⟨scheme, netloc, path, query, fragment⟩

/-- Python `s.rpartition(sep)[2]`: the part after the last `sep`
(the whole string when `sep` is absent). -/
def afterLast (sep : Char) (cs : List Char) : List Char :=
  (cs.reverse.takeWhile (fun c => c != sep)).reverse

/-- Python `s.partition(sep)[0]`: the part before the first `sep`
(the whole string when `sep` is absent). -/
def beforeFirst (sep : Char) (cs : List Char) : List Char :=
  cs.takeWhile (fun c => c != sep)

def containsC (sep : Char) (cs : List Char) : Bool := cs.contains sep

/-- The host part of a netloc (CPython `_hostinfo`): strip userinfo after the
last '@'; inside '[' brackets take up to ']', else take up to the first ':'. -/
def netlocHostname (netloc : List Char) : List Char :=
  let hostinfo := afterLast '@' netloc
  if containsC '[' hostinfo then
    beforeFirst ']' ((hostinfo.dropWhile (fun c => c != '[')).drop 1)
  else
    beforeFirst ':' hostinfo

/-- CPython `SplitResult.hostname`: `None` for an empty host, otherwise the
host lowercased (an IPv6 zone after '%' is kept unlowered). -/
def UrlSplit.hostnameL (u : UrlSplit) : Option (List Char) :=
  let h := netlocHostname u.netloc
  if h = [] then none
  else if containsC '%' h then
    some (lowerL (beforeFirst '%' h) ++ '%' :: (h.dropWhile (fun c => c != '%')).drop 1)
  else some (lowerL h)

/-- CPython `urllib.parse.urlunsplit`. -/
def urlunsplitL (u : UrlSplit) : List Char :=
  let url0 := u.path
  let url1 :=
    if u.netloc ≠ [] ∨ url0.take 2 = ['/', '/'] then
      '/' :: '/' :: u.netloc ++ (if url0 ≠ [] ∧ url0.take 1 ≠ ['/'] then '/' :: url0 else url0)
    else url0
  let url2 := if u.scheme ≠ [] then u.scheme ++ ':' :: url1 else url1
  let url3 := if u.query ≠ [] then url2 ++ '?' :: u.query else url2
  if u.fragment ≠ [] then url3 ++ '#' :: u.fragment else url3

/-- CPython `uses_relative` scheme list. -/
def usesRelative : List (List Char) :=
  ["", "ftp", "http", "gopher", "nntp", "imap", "wais", "file", "https", "shttp",
   "mms", "prospero", "rtsp", "rtspu", "sftp", "svn", "svn+ssh", "ws", "wss"].map String.data

/-- CPython `uses_netloc` scheme list. -/
def usesNetloc : List (List Char) :=
  ["", "ftp", "http", "gopher", "nntp", "telnet", "imap", "wais", "file", "mms",
   "https", "shttp", "snews", "prospero", "rtsp", "rtspu", "rsync", "svn",
   "svn+ssh", "sftp", "nfs", "git", "git+ssh", "ws", "wss", "itms-services"].map String.data

/-- Python `str.split('/')` (always returns at least one piece). -/
def splitSlash : List Char → List (List Char)
  | [] => [[]]
  | c :: rest =>
    let r := splitSlash rest
    if c = '/' then [] :: r else (c :: r.headD []) :: r.tail

/-- The dot-segment elimination loop of CPython `urljoin`: '..' pops the last
resolved segment (ignoring pops from empty), '.' is skipped. -/
def resolveDotSegs (segs : List (List Char)) : List (List Char) :=
  segs.foldl
    (fun acc seg =>
      if seg = ['.', '.'] then acc.dropLast
      else if seg = ['.'] then acc
      else acc ++ [seg]) []

/-- Python `segments[1:-1] = filter(None, segments[1:-1])`: drop empty segments
strictly between the first and the last. -/
def keepEndsFilterEmpty (l : List (List Char)) : List (List Char) :=
  match l with
  | [] => []
  | [x] => [x]
  | x :: rest => x :: ((rest.dropLast.filter (fun s => !s.isEmpty)) ++ [rest.getLast?.getD []])

def joinSlash (segs : List (List Char)) : List Char :=
  List.intercalate ['/'] segs

/-- CPython `urllib.parse.urljoin`.  The `params` component (split off the path
by `urlparse` at ';') is folded into the path: no input in this development
contains ';', where the two treatments agree. -/
def urljoinL (base url : List Char) : List Char :=
  if base = [] then url
  else if url = [] then base
  else
    let b := urlsplitL base
    let u := urlsplitL url
    let scheme := if u.scheme = [] then b.scheme else u.scheme
    if ¬ (scheme = b.scheme ∧ usesRelative.contains scheme) then url
    else if usesNetloc.contains scheme ∧ u.netloc ≠ [] then
      urlunsplitL ⟨scheme, u.netloc, u.path, u.query, u.fragment⟩
    else
      let netloc := if usesNetloc.contains scheme ∧ u.netloc = [] then b.netloc else u.netloc
      if u.path = [] then
        urlunsplitL ⟨scheme, netloc, b.path, (if u.query = [] then b.query else u.query), u.fragment⟩
      else
        let baseParts0 := splitSlash b.path
        let baseParts := if baseParts0.getLast?.getD [] ≠ [] then baseParts0.dropLast else baseParts0
        let segments :=
          if u.path.take 1 = ['/'] then splitSlash u.path
          else keepEndsFilterEmpty (baseParts ++ splitSlash u.path)
        let resolved0 := resolveDotSegs segments
        let resolved :=
          if segments.getLast?.getD [] = ['.'] ∨ segments.getLast?.getD [] = ['.', '.'] then
            resolved0 ++ [[]]
          else resolved0
        let p := joinSlash resolved
        urlunsplitL ⟨scheme, netloc, (if p = [] then ['/'] else p), u.query, u.fragment⟩

/-- CPython `urldefrag`, first component: the URL without its fragment. -/
def urldefragL (url : List Char) : List Char :=
  if containsC '#' url then
    let u := urlsplitL url
    urlunsplitL ⟨u.scheme, u.netloc, u.path, u.query, []⟩
  else url

/-! ## BasicArchiver (src/backend/archiver/basic_archiver.py) -/

/-- The constructor arguments and the per-instance values of
`BasicArchiver.__init__` that the claims need (`job_id` is the id assigned in
`run`).  `_allowed_netloc` is derived below. -/
structure BasicArchiver where
  url : List Char
  numWorkers : Nat
  maxPages : Nat
  jobId : Nat

/-- `self._allowed_netloc = urllib.parse.urlparse(self.url).netloc.lower()`
(`urlparse` and `urlsplit` agree on scheme and netloc). -/
def BasicArchiver.allowedNetloc (a : BasicArchiver) : List Char :=
  lowerL (urlsplitL a.url).netloc

def isHttpScheme (s : List Char) : Bool :=
  s == "http".data || s == "https".data

/-- `BasicArchiver.same_domain`: scheme in {http, https} and lowercased netloc
equal to the allowed netloc. -/
def BasicArchiver.same_domain (a : BasicArchiver) (u : List Char) : Bool :=
  let p := urlsplitL u
  isHttpScheme p.scheme && (lowerL p.netloc == a.allowedNetloc)

/-- C7: the same-host predicate is true iff the scheme is http or https and the
lowercased authority (host[:port]) equals the seed's lowercased authority
exactly; in particular, for seed `https://a.com`: `https://a.com/x` matches,
`http://b.com` does not, `https://A.com` matches (case-insensitive), and
`https://a.com:443/x` (explicit default port) does not. -/
theorem c7_same_domain_exact_authority :
    (∀ (a : BasicArchiver) (u : List Char),
      a.same_domain u =
        (isHttpScheme (urlsplitL u).scheme &&
          (lowerL (urlsplitL u).netloc == lowerL (urlsplitL a.url).netloc)))
    ∧ (BasicArchiver.mk "https://a.com".data 8 25 1).same_domain "https://a.com/x".data = true
    ∧ (BasicArchiver.mk "https://a.com".data 8 25 1).same_domain "http://b.com".data = false
    ∧ (BasicArchiver.mk "https://a.com".data 8 25 1).same_domain "https://A.com".data = true
    ∧ (BasicArchiver.mk "https://a.com".data 8 25 1).same_domain "https://a.com:443/x".data = false := by
  refine ⟨fun a u => rfl, by decide, by decide, by decide, by decide⟩

/-- The in-memory frontier state of one `BasicArchiver` instance: the pending
queue (`asyncio.Queue` contents, FIFO) and the `total_links_seen` counter. -/
structure Frontier where
  queue : List (List Char)
  total_links_seen : Nat
deriving DecidableEq

/-- `BasicArchiver.put_todo`: return unchanged when the counter has reached
`max_pages`; return unchanged when the scheme is not http/https or the URL is
not same-domain; otherwise increment the counter and push the URL. -/
def put_todo (a : BasicArchiver) (st : Frontier) (url : List Char) : Frontier :=
  if st.total_links_seen ≥ a.maxPages then st
  else if !(isHttpScheme (urlsplitL url).scheme) || !(a.same_domain url) then st
  else ⟨st.queue ++ [url], st.total_links_seen + 1⟩

/-- Helper: one `put_todo` step preserves `total_links_seen ≤ maxPages`. -/
theorem put_todo_total_le (a : BasicArchiver) (st : Frontier) (url : List Char)
    (h : st.total_links_seen ≤ a.maxPages) :
    (put_todo a st url).total_links_seen ≤ a.maxPages := by
  unfold put_todo
  split
  · exact h
  · split
    · exact h
    · simp only [Frontier.mk.injEq]
      omega

/-- Helper: `total_links_seen ≤ maxPages` is preserved by any serialized
sequence of `put_todo` calls. -/
theorem put_todo_foldl_total_le (a : BasicArchiver) (urls : List (List Char)) :
    ∀ st : Frontier, st.total_links_seen ≤ a.maxPages →
      (urls.foldl (put_todo a) st).total_links_seen ≤ a.maxPages := by
  induction urls with
  | nil => intro st h; exact h
  | cons u rest ih =>
    intro st h
    exact ih (put_todo a st u) (put_todo_total_le a st u h)

/-- C6: `put_todo` admits a URL iff its scheme is http or https, its lowercased
authority equals the seed authority, and the counter is strictly below
`max_pages`; on admission it appends the URL and increments the counter,
otherwise it leaves the state unchanged.  Consequently, starting from the
fresh frontier, `total_links_seen ≤ maxPages` after every serialized sequence
of enqueue operations. -/
theorem c6_frontier_cap :
    (∀ (a : BasicArchiver) (st : Frontier) (url : List Char),
      put_todo a st url =
        if (isHttpScheme (urlsplitL url).scheme &&
            (lowerL (urlsplitL url).netloc == a.allowedNetloc) &&
            decide (st.total_links_seen < a.maxPages)) = true then
          ⟨st.queue ++ [url], st.total_links_seen + 1⟩
        else st)
    ∧ (∀ (a : BasicArchiver) (urls : List (List Char)),
        (urls.foldl (put_todo a) ⟨[], 0⟩).total_links_seen ≤ a.maxPages) := by
  constructor
  · intro a st url
    unfold put_todo BasicArchiver.same_domain
    by_cases hcap : st.total_links_seen ≥ a.maxPages
    · rw [if_pos hcap]
      have hdec : decide (st.total_links_seen < a.maxPages) = false := by
        simp only [decide_eq_false_iff_not]
        omega
      rw [hdec]
      simp
    · rw [if_neg hcap]
      have hdec : decide (st.total_links_seen < a.maxPages) = true := by
        simp only [decide_eq_true_eq]
        omega
      rw [hdec]
      cases hs : isHttpScheme (urlsplitL url).scheme <;>
        cases hn : (lowerL (urlsplitL url).netloc == a.allowedNetloc) <;>
          simp [hs, hn]
  · intro a urls
    exact put_todo_foldl_total_le a urls ⟨[], 0⟩ (Nat.zero_le _)

/-! ## Fetch responses, crawl and persistence -/

/-- Python's substring test `needle in hay` on strings. -/
def containsSeq (hay needle : List Char) : Bool :=
  if needle.isPrefixOf hay then true
  else
    match hay with
    | [] => false
    | _ :: t => containsSeq t needle

/-- The fields of the HTTP response object that `crawl` / `archive_content`
read: `str(resp.url)` (final URL after redirects), `resp.request.url`,
`resp.status_code`, `resp.headers.get('content-type')`, `resp.text`,
`resp.content`. -/
structure HttpResponse where
  finalUrl : List Char
  requestUrl : Option (List Char)
  statusCode : Nat
  contentTypeHeader : Option (List Char)
  text : Option (List Char)
  content : List Nat
deriving DecidableEq

/-- One row of `archived_resource` as built by `BasicArchiver.archive_content`. -/
structure ResourceRow where
  link : List Char
  host : List Char
  status_code : Nat
  content_type : Option (List Char)
  content : List Nat
  content_length : Nat
  scraping_job : Nat
deriving DecidableEq

/-- The parameter dict of `BasicArchiver.archive_content`:
`link = resp.request.url or source_url` (Python falsy: `None` or empty),
`host = urlparse(link).netloc.lower()`, plus status, content-type header,
bytes, length and the job id. -/
def archive_content_row (a : BasicArchiver) (resp : HttpResponse)
    (source_url : List Char) : ResourceRow :=
  let link :=
    match resp.requestUrl with
    | some l => if l = [] then source_url else l
    | none => source_url
  { link := link
    host := lowerL (urlsplitL link).netloc
    status_code := resp.statusCode
    content_type := resp.contentTypeHeader
    content := resp.content
    content_length := resp.content.length
    scraping_job := a.jobId }

/-- What one `BasicArchiver.crawl` call does with a fetched response: the row
it persists (if any) and the set of URLs it feeds to `on_found_links`
(if link extraction ran). -/
structure CrawlOutcome where
  archived : Option ResourceRow
  discovered : Option (List (List Char))
deriving DecidableEq

/-- `BasicArchiver.crawl` on an already-fetched response.  `parse_links_fn`
stands for `parse_links` (lxml HTML parsing, an external collaborator here):
it receives the base URL and the body text and returns `(pages, assets)`.
Mirrors the source: discard silently when the final URL is off-domain;
`is_html = 'text/html' in ctype and status == 200`; extract links only then;
always persist via `archive_content`. -/
def crawl (a : BasicArchiver)
    (parse_links_fn : List Char → List Char → List (List Char) × List (List Char))
    (resp : HttpResponse) : CrawlOutcome :=
  if !(a.same_domain resp.finalUrl) then ⟨none, none⟩
  else
    let ctype := lowerL (resp.contentTypeHeader.getD [])
    let is_html := containsSeq ctype "text/html".data && (resp.statusCode == 200)
    if is_html then
      let pa := parse_links_fn resp.finalUrl (resp.text.getD [])
      ⟨some (archive_content_row a resp resp.finalUrl), some (pa.1 ++ pa.2)⟩
    else
      ⟨some (archive_content_row a resp resp.finalUrl), none⟩

/-- C8: crawl discards silently (no persisted row, no link extraction) when the
final URL's authority does not match the seed authority; when it matches, the
fetched resource is persisted unconditionally — for every status code and
every content type. -/
theorem c8_crawl_discard_or_persist (a : BasicArchiver)
    (fn : List Char → List Char → List (List Char) × List (List Char))
    (resp : HttpResponse) :
    (a.same_domain resp.finalUrl = false → crawl a fn resp = ⟨none, none⟩)
    ∧ (a.same_domain resp.finalUrl = true →
        (crawl a fn resp).archived = some (archive_content_row a resp resp.finalUrl)) := by
  constructor
  · intro h
    unfold crawl
    rw [h]
    rfl
  · intro h
    unfold crawl
    rw [h]
    simp only [Bool.not_true, Bool.false_eq_true, if_false]
    split <;> rfl

/-- Witness for C8 at concrete inputs: an off-host redirect
(seed `https://a.com`, final URL `https://evil.com/p`) is discarded, and an
on-host non-200 PDF response (status 404, content type `application/pdf`) is
still persisted. -/
theorem c8_crawl_discard_or_persist_witness :
    crawl (BasicArchiver.mk "https://a.com".data 8 25 3) (fun _ _ => ([], []))
        (HttpResponse.mk "https://evil.com/p".data (some "https://a.com/p".data) 200
          (some "text/html".data) (some "<html></html>".data) [60]) = ⟨none, none⟩
    ∧ (crawl (BasicArchiver.mk "https://a.com".data 8 25 3) (fun _ _ => ([], []))
        (HttpResponse.mk "https://a.com/f.pdf".data (some "https://a.com/f.pdf".data) 404
          (some "application/pdf".data) none [37, 80])).archived =
      some (archive_content_row (BasicArchiver.mk "https://a.com".data 8 25 3)
        (HttpResponse.mk "https://a.com/f.pdf".data (some "https://a.com/f.pdf".data) 404
          (some "application/pdf".data) none [37, 80]) "https://a.com/f.pdf".data) :=
  ⟨(c8_crawl_discard_or_persist _ _ _).1 (by decide),
   (c8_crawl_discard_or_persist _ _ _).2 (by decide)⟩

/-! ## Content classification (claim C2) -/

/-- The seven content classes named by the spec. -/
inductive ContentClass
  | html | css | js | image | video | font | other
deriving DecidableEq

/-- Modelled from the spec: the URL-path-extension fallback mapping of §4.2
step 4 (html/htm/php/asp/aspx→html; css→css; js/mjs→js;
png/jpg/jpeg/gif/svg/webp/bmp/ico→image; mp4/webm/ogg/mov/mkv→video;
woff/woff2/ttf/otf/eot→font; else other).  No such mapping exists in the
source; this definition exists only to state claim C2 against the code. -/
def specExtClass (ext : List Char) : ContentClass :=
  if (["html", "htm", "php", "asp", "aspx"].map String.data).contains ext then .html
  else if ext = "css".data then .css
  else if (["js", "mjs"].map String.data).contains ext then .js
  else if (["png", "jpg", "jpeg", "gif", "svg", "webp", "bmp", "ico"].map String.data).contains ext then .image
  else if (["mp4", "webm", "ogg", "mov", "mkv"].map String.data).contains ext then .video
  else if (["woff", "woff2", "ttf", "otf", "eot"].map String.data).contains ext then .font
  else .other

/-- Modelled from the spec: the URL's path extension — the lowercased suffix
after the last '.' of the last path segment (empty when there is no dot). -/
def urlPathExt (u : List Char) : List Char :=
  let seg := afterLast '/' (urlsplitL u).path
  if containsC '.' seg then lowerL (afterLast '.' seg) else []

/-- C2 counterexample: a same-host response with NO content-type header whose
URL has a `.html` path extension and status 200.  The claim says it is
classified html and undergoes link extraction; `crawl` runs no link
extraction (`discovered = none`) because the code classifies only by the
header substring test `'text/html' in ctype`, with no extension fallback —
even though the supplied parser would have returned a link. -/
theorem c2_counterexample_no_header_html_ext :
    (HttpResponse.mk "https://a.com/page.html".data (some "https://a.com/page.html".data) 200
      none (some "<a href=x>".data) [60]).contentTypeHeader = none
    ∧ urlPathExt "https://a.com/page.html".data = "html".data
    ∧ specExtClass (urlPathExt "https://a.com/page.html".data) = ContentClass.html
    ∧ (BasicArchiver.mk "https://a.com".data 8 25 3).same_domain "https://a.com/page.html".data = true
    ∧ (crawl (BasicArchiver.mk "https://a.com".data 8 25 3)
        (fun _ _ => (["https://a.com/next".data], []))
        (HttpResponse.mk "https://a.com/page.html".data (some "https://a.com/page.html".data) 200
          none (some "<a href=x>".data) [60])).discovered = none := by
  refine ⟨rfl, by decide, by decide, by decide, by decide⟩

/-- C2 amended: `crawl` runs link extraction iff the final URL is same-domain,
the lowercased content-type header (empty string when the header is absent)
contains `text/html` as a substring, and the status code is exactly 200; the
URL's path extension plays no role and there is no {css, js, image, video,
font} classification at crawl time. -/
theorem c2_amended_extraction_iff_header (a : BasicArchiver)
    (fn : List Char → List Char → List (List Char) × List (List Char))
    (resp : HttpResponse) :
    ((crawl a fn resp).discovered).isSome =
      (a.same_domain resp.finalUrl &&
        containsSeq (lowerL (resp.contentTypeHeader.getD [])) "text/html".data &&
        (resp.statusCode == 200)) := by
  unfold crawl
  cases hsd : a.same_domain resp.finalUrl
  · simp [hsd]
  · simp only [hsd, Bool.not_true, Bool.false_eq_true, if_false]
    cases hih : (containsSeq (lowerL (resp.contentTypeHeader.getD [])) "text/html".data &&
        (resp.statusCode == 200)) <;> simp [hih, Bool.and_assoc]

/-! ## Percent-encoding (urllib.parse.quote / unquote, ASCII level) -/

/-- The characters `quote` never escapes (CPython `_ALWAYS_SAFE`:
letters, digits, '_', '.', '-', '~'). -/
def alwaysSafe (c : Char) : Bool :=
  c.isAlpha || c.isDigit || c = '_' || c = '.' || c = '-' || c = '~'

/-- Uppercase hex digit (CPython quote emits `%XX` with uppercase hex). -/
def hexUpper (n : Nat) : Char :=
  if n < 10 then Char.ofNat (48 + n) else Char.ofNat (55 + n)

/-- `urllib.parse.quote(s, safe='')` on ASCII text: every character outside
the always-safe set becomes `%` plus two uppercase hex digits of its byte. -/
def quoteL : List Char → List Char
  | [] => []
  | c :: rest =>
    if alwaysSafe c then c :: quoteL rest
    else '%' :: hexUpper (c.toNat / 16) :: hexUpper (c.toNat % 16) :: quoteL rest

/-- Value of one hex digit, any case. -/
def hexVal (c : Char) : Option Nat :=
  if '0' ≤ c ∧ c ≤ '9' then some (c.toNat - 48)
  else if 'a' ≤ c ∧ c ≤ 'f' then some (c.toNat - 87)
  else if 'A' ≤ c ∧ c ≤ 'F' then some (c.toNat - 55)
  else none

/-- `urllib.parse.unquote` on ASCII text: each `%XX` with two hex digits
becomes the byte's character; a '%' not followed by two hex digits is kept. -/
def unquoteL : List Char → List Char
  | [] => []
  | [c] => [c]
  | [c, d] => [c, d]
  | c :: h1 :: h2 :: rest =>
    if c = '%' then
      match hexVal h1, hexVal h2 with
      | some a, some b => Char.ofNat (16 * a + b) :: unquoteL rest
      | _, _ => c :: unquoteL (h1 :: h2 :: rest)
    else c :: unquoteL (h1 :: h2 :: rest)

/-! ## Decimal rendering and parsing (Python str(int) / int(str)) -/

/-- Base-10 digits of a natural number, most significant first
(well-founded formulation, used for reasoning). -/
def natDigitsW (n : Nat) : List Nat :=
  if _h : n < 10 then [n] else natDigitsW (n / 10) ++ [n % 10]
termination_by n
decreasing_by exact Nat.div_lt_self (by omega) (by omega)

/-- Fuel-driven digit accumulator (structurally recursive, so that concrete
values reduce in the kernel). -/
def natDigitsCore (fuel : Nat) (n : Nat) (acc : List Nat) : List Nat :=
  match fuel with
  | 0 => acc
  | fuel + 1 => if n < 10 then n :: acc else natDigitsCore fuel (n / 10) (n % 10 :: acc)

/-- Base-10 digits of a natural number, most significant first. -/
def natDigits (n : Nat) : List Nat := natDigitsCore (n + 1) n []

theorem natDigitsCore_eq (fuel : Nat) :
    ∀ (n : Nat) (acc : List Nat), n < fuel →
      natDigitsCore fuel n acc = natDigitsW n ++ acc := by
  induction fuel with
  | zero => intro n acc h; omega
  | succ fuel ih =>
    intro n acc h
    rw [natDigitsCore]
    by_cases h10 : n < 10
    · rw [if_pos h10, natDigitsW, dif_pos h10]
      rfl
    · rw [if_neg h10, ih (n / 10) (n % 10 :: acc)
        (by
          have := Nat.div_lt_self (show 0 < n by omega) (show 1 < 10 by decide)
          omega)]
      conv_rhs => rw [natDigitsW]
      rw [dif_neg h10, List.append_assoc]
      rfl

theorem natDigits_eq_W (n : Nat) : natDigits n = natDigitsW n := by
  rw [natDigits, natDigitsCore_eq (n + 1) n [] (by omega), List.append_nil]

def digitChar (d : Nat) : Char := Char.ofNat (48 + d)

/-- Python `str(n)` for a nonnegative int. -/
def natRepr (n : Nat) : List Char := (natDigits n).map digitChar

/-- Python `int(s)` for a nonempty digit string. -/
def digitsVal (cs : List Char) : Nat :=
  cs.foldl (fun a c => a * 10 + (c.toNat - 48)) 0

/-- A character of the regex class `[a-z_]`. -/
def isLowerUnd (c : Char) : Bool := ('a' ≤ c && c ≤ 'z') || c = '_'

/-- The job-segment parsing of `web_wayback`: if the whole segment is digits
(`str.isdigit`), it is the job id; otherwise `re.match(r'(\d+)([a-z_]+)?')`
takes the leading digit run as the job id and the following `[a-z_]` run as
the modifier; no leading digit run means failure (the 400 path). -/
def decodeSegment (cs : List Char) : Option (Nat × List Char) :=
  if cs ≠ [] ∧ cs.all Char.isDigit then some (digitsVal cs, [])
  else
    match cs.takeWhile Char.isDigit with
    | [] => none
    | d :: ds =>
      some (digitsVal (d :: ds), (cs.dropWhile Char.isDigit).takeWhile isLowerUnd)

/-! ## Path codec encode (main.py `_wb_path`) -/

/-- The modifier chosen from the `kind` string of `_wb_path`. -/
def wbMod (kind : List Char) : List Char :=
  if kind = "image".data then "im_".data
  else if kind = "css".data then "cs_".data
  else if kind = "js".data then "js_".data
  else []

/-- main.py `_wb_path`: `/web/{job_id}{mod}/{quote(full_url, safe='')}`. -/
def _wb_path (job_id : Nat) (full_url : List Char) (kind : List Char) : List Char :=
  "/web/".data ++ natRepr job_id ++ wbMod kind ++ '/' :: quoteL full_url

/-! ## main.py `_abs_url` and the HTML rewriter -/

/-- main.py `_abs_url(base_host, val)`: `None` for empty values and values
starting with '#', 'data:', 'mailto:' or 'javascript:'; '//' values are read
as https; absolute http/https values are split as they are; all other values
are resolved against `https://{base_host}/`; the result is kept iff its
parsed hostname (lowercased, port stripped) equals `base_host`. -/
def _abs_url (base_host : List Char) (val : List Char) : Option (List Char) :=
  if val = [] || "#".data.isPrefixOf val || "data:".data.isPrefixOf val
      || "mailto:".data.isPrefixOf val || "javascript:".data.isPrefixOf val then none
  else
    let parsed :=
      if val.take 2 = ['/', '/'] then urlsplitL ("https:".data ++ val)
      else if "http://".data.isPrefixOf val || "https://".data.isPrefixOf val then urlsplitL val
      else if val.take 1 = ['/'] then urlsplitL ("https://".data ++ base_host ++ val)
      else urlsplitL ("https://".data ++ base_host ++ '/' :: val)
    match parsed.hostnameL with
    | some h => if h = base_host then some (urlunsplitL parsed) else none
    | none => none

/-- The tag names `rewrite_links_in_html` distinguishes. -/
inductive TagName
  | a | link | img | script | other
deriving DecidableEq

/-- One element of the parsed document, at the level BeautifulSoup's
`find_all` iterates it: tag name, `href` and `src` attributes, `rel` list. -/
structure Element where
  tag : TagName
  href : Option (List Char)
  src : Option (List Char)
  rel : List (List Char)
deriving DecidableEq

/-- The `kind` string chosen for an `href` rewrite: for `<link>`,
'stylesheet' in rel → css, else 'icon' or 'apple-touch-icon' in rel → image;
anchors and other links get ''. -/
def hrefKind (el : Element) : List Char :=
  if el.tag = TagName.link then
    if el.rel.contains "stylesheet".data then "css".data
    else if el.rel.contains "icon".data || el.rel.contains "apple-touch-icon".data then
      "image".data
    else []
  else []

/-- First loop of `rewrite_links_in_html`: over `soup.find_all(['a', 'link'],
href=True)`, replace `href` by the `_wb_path` of its `_abs_url` resolution
when that resolution succeeds. -/
def rewriteHrefPass (host : List Char) (job_id : Nat) (doc : List Element) : List Element :=
  doc.map fun el =>
    if el.tag = TagName.a ∨ el.tag = TagName.link then
      match el.href with
      | some h =>
        match _abs_url host h with
        | some absu => { el with href := some (_wb_path job_id absu (hrefKind el)) }
        | none => el
      | none => el
    else el

/-- Second loop of `rewrite_links_in_html`: over `soup.find_all(['img',
'script'], src=True)`, kind 'image' for img and 'js' for script. -/
def rewriteSrcPass (host : List Char) (job_id : Nat) (doc : List Element) : List Element :=
  doc.map fun el =>
    if el.tag = TagName.img ∨ el.tag = TagName.script then
      match el.src with
      | some s =>
        match _abs_url host s with
        | some absu =>
          { el with src := some (_wb_path job_id absu
              (if el.tag = TagName.img then "image".data else "js".data)) }
        | none => el
      | none => el
    else el

/-- main.py `rewrite_links_in_html` at the attribute level: the href loop,
then the src loop. -/
def rewrite_links_in_html (host : List Char) (job_id : Nat) (doc : List Element) : List Element :=
  rewriteSrcPass host job_id (rewriteHrefPass host job_id doc)

/-- The extraction-side absolute resolution: `BasicArchiver.abs_url`
(`urljoin` then fragment strip; `None` for `None`/empty input). -/
def abs_url (base : List Char) (u : Option (List Char)) : Option (List Char) :=
  match u with
  | none => none
  | some v => if v = [] then none else some (urldefragL (urljoinL base v))

/-! ## Path codec round-trip (claim C5) -/

/-- The FastAPI route split for `@app.get('/web/{job_and_mod}/{original_url:path}')`:
the segment after `/web/` up to the first '/', and the remainder. -/
def splitWbPath (cs : List Char) : Option (List Char × List Char) :=
  if "/web/".data.isPrefixOf cs then
    match (cs.drop 5).dropWhile (fun c => c != '/') with
    | '/' :: enc => some ((cs.drop 5).takeWhile (fun c => c != '/'), enc)
    | _ => none
  else none

theorem hexVal_hexUpper (n : Nat) (h : n < 16) : hexVal (hexUpper n) = some n := by
  interval_cases n <;> decide

theorem unquoteL_cons_ne (c : Char) (l : List Char) (hc : ¬ c = '%') :
    unquoteL (c :: l) = c :: unquoteL l := by
  match l with
  | [] => rfl
  | [d] => rfl
  | h1 :: h2 :: rest => simp [unquoteL, hc]

/-- Percent-decoding inverts percent-encoding on ASCII text. -/
theorem unquoteL_quoteL (cs : List Char) (h : ∀ c ∈ cs, c.toNat < 128) :
    unquoteL (quoteL cs) = cs := by
  induction cs with
  | nil => rfl
  | cons c rest ih =>
    have hc : c.toNat < 128 := h c (List.mem_cons_self c rest)
    have hrest := ih (fun x hx => h x (List.mem_cons_of_mem c hx))
    by_cases hsafe : alwaysSafe c = true
    · rw [quoteL, if_pos hsafe]
      have hne : ¬ c = '%' := by
        intro heq
        rw [heq] at hsafe
        exact absurd hsafe (by decide)
      rw [unquoteL_cons_ne c _ hne, hrest]
    · rw [quoteL, if_neg hsafe]
      have hdiv : c.toNat / 16 < 16 := by omega
      have hmod : c.toNat % 16 < 16 := Nat.mod_lt _ (by omega)
      rw [unquoteL, if_pos rfl, hexVal_hexUpper _ hdiv, hexVal_hexUpper _ hmod]
      show Char.ofNat (16 * (c.toNat / 16) + c.toNat % 16) :: unquoteL (quoteL rest) = c :: rest
      rw [Nat.div_add_mod c.toNat 16, Char.ofNat_toNat, hrest]

theorem hexUpper_ne_slash (n : Nat) (h : n < 16) : ¬ hexUpper n = '/' := by
  interval_cases n <;> decide

theorem quoteL_no_slash (cs : List Char) (hascii : ∀ c ∈ cs, c.toNat < 128) :
    ∀ c ∈ quoteL cs, ¬ c = '/' := by
  induction cs with
  | nil => intro c hc; cases hc
  | cons x rest ih =>
    have hx : x.toNat < 128 := hascii x (List.mem_cons_self x rest)
    have ih2 := ih (fun c hc => hascii c (List.mem_cons_of_mem x hc))
    intro c hc
    by_cases hsafe : alwaysSafe x = true
    · rw [quoteL, if_pos hsafe] at hc
      rcases List.mem_cons.mp hc with h1 | h1
      · intro heq
        rw [heq] at h1
        rw [← h1] at hsafe
        exact absurd hsafe (by decide)
      · exact ih2 c h1
    · rw [quoteL, if_neg hsafe] at hc
      rcases List.mem_cons.mp hc with h1 | h1
      · rw [h1]; decide
      · rcases List.mem_cons.mp h1 with h2 | h2
        · rw [h2]; exact hexUpper_ne_slash _ (by omega)
        · rcases List.mem_cons.mp h2 with h3 | h3
          · rw [h3]; exact hexUpper_ne_slash _ (Nat.mod_lt _ (by omega))
          · exact ih2 c h3

theorem natDigitsW_ne_nil (n : Nat) : natDigitsW n ≠ [] := by
  unfold natDigitsW
  split
  · simp
  · simp

theorem natDigitsW_lt (n : Nat) : ∀ d ∈ natDigitsW n, d < 10 := by
  induction n using Nat.strong_induction_on with
  | _ n ih =>
    intro d hd
    rw [natDigitsW] at hd
    split at hd
    · next h =>
      have h2 := List.mem_singleton.mp hd
      omega
    · next h =>
      rcases List.mem_append.mp hd with h2 | h2
      · exact ih (n / 10) (Nat.div_lt_self (by omega) (by decide)) d h2
      · have h3 := List.mem_singleton.mp h2
        have := Nat.mod_lt n (show 0 < 10 by decide)
        omega

theorem digitChar_toNat (d : Nat) (h : d < 10) : (digitChar d).toNat = 48 + d := by
  interval_cases d <;> decide

theorem digitChar_isDigit (d : Nat) (h : d < 10) : (digitChar d).isDigit = true := by
  interval_cases d <;> decide

theorem natRepr_ne_nil (n : Nat) : natRepr n ≠ [] := by
  unfold natRepr
  rw [natDigits_eq_W, Ne, List.map_eq_nil_iff]
  exact natDigitsW_ne_nil n

theorem natRepr_all_digit (n : Nat) : ∀ c ∈ natRepr n, c.isDigit = true := by
  intro c hc
  rw [natRepr, natDigits_eq_W] at hc
  rcases List.mem_map.mp hc with ⟨d, hd, rfl⟩
  exact digitChar_isDigit d (natDigitsW_lt n d hd)

theorem foldl_natDigitsW (n : Nat) :
    ∀ acc : Nat, (natDigitsW n).foldl (fun a d => a * 10 + d) acc
      = acc * 10 ^ (natDigitsW n).length + n := by
  induction n using Nat.strong_induction_on with
  | _ n ih =>
    intro acc
    rw [natDigitsW]
    split
    · next h =>
      show acc * 10 + n = acc * 10 ^ 1 + n
      rw [pow_one]
    · next h =>
      rw [List.foldl_append, ih (n / 10) (Nat.div_lt_self (by omega) (by decide)) acc]
      show (acc * 10 ^ (natDigitsW (n / 10)).length + n / 10) * 10 + n % 10
        = acc * 10 ^ (natDigitsW (n / 10) ++ [n % 10]).length + n
      rw [List.length_append]
      show (acc * 10 ^ (natDigitsW (n / 10)).length + n / 10) * 10 + n % 10
        = acc * 10 ^ ((natDigitsW (n / 10)).length + 1) + n
      calc (acc * 10 ^ (natDigitsW (n / 10)).length + n / 10) * 10 + n % 10
          = acc * (10 ^ (natDigitsW (n / 10)).length * 10) + (10 * (n / 10) + n % 10) := by ring
        _ = acc * 10 ^ ((natDigitsW (n / 10)).length + 1) + n := by
            rw [← pow_succ, Nat.div_add_mod]

theorem digitsVal_natRepr (n : Nat) : digitsVal (natRepr n) = n := by
  unfold digitsVal natRepr
  rw [natDigits_eq_W, List.foldl_map]
  rw [List.foldl_ext (fun a c => a * 10 + ((digitChar c).toNat - 48)) (fun a d => a * 10 + d) 0
    (fun a d hd => by
      show a * 10 + ((digitChar d).toNat - 48) = a * 10 + d
      rw [digitChar_toNat d (natDigitsW_lt n d hd)]
      omega)]
  rw [foldl_natDigitsW n 0]
  simp

theorem takeWhile_of_all (p : Char → Bool) (l : List Char) (hl : ∀ c ∈ l, p c = true) :
    l.takeWhile p = l := by
  induction l with
  | nil => rfl
  | cons a t ih =>
    rw [List.takeWhile_cons, if_pos (hl a (List.mem_cons_self a t)),
      ih (fun c hc => hl c (List.mem_cons_of_mem a hc))]

theorem takeWhile_append_stop (p : Char → Bool) (l : List Char) (x : Char) (r : List Char)
    (hl : ∀ c ∈ l, p c = true) (hx : p x = false) :
    (l ++ x :: r).takeWhile p = l ∧ (l ++ x :: r).dropWhile p = x :: r := by
  induction l with
  | nil =>
    constructor
    · rw [List.nil_append, List.takeWhile_cons, if_neg (by rw [hx]; exact Bool.false_ne_true)]
    · rw [List.nil_append, List.dropWhile_cons, if_neg (by rw [hx]; exact Bool.false_ne_true)]
  | cons a t ih =>
    have ha : p a = true := hl a (List.mem_cons_self a t)
    obtain ⟨ht, hd⟩ := ih (fun c hc => hl c (List.mem_cons_of_mem a hc))
    constructor
    · rw [List.cons_append, List.takeWhile_cons, if_pos ha, ht]
    · rw [List.cons_append, List.dropWhile_cons, if_pos ha, hd]

theorem decodeSegment_natRepr (n : Nat) : decodeSegment (natRepr n) = some (n, []) := by
  unfold decodeSegment
  rw [if_pos ⟨natRepr_ne_nil n, List.all_eq_true.mpr (natRepr_all_digit n)⟩,
    digitsVal_natRepr]

theorem decodeSegment_natRepr_append (n : Nat) (m0 : Char) (mrest : List Char)
    (hm0 : m0.isDigit = false) (hml : ∀ c ∈ m0 :: mrest, isLowerUnd c = true) :
    decodeSegment (natRepr n ++ m0 :: mrest) = some (n, m0 :: mrest) := by
  unfold decodeSegment
  have hcond : ¬ (natRepr n ++ m0 :: mrest ≠ [] ∧
      (natRepr n ++ m0 :: mrest).all Char.isDigit = true) := by
    rintro ⟨-, hA⟩
    rw [List.all_append] at hA
    have := (Bool.and_eq_true _ _).mp hA
    have h2 := List.all_eq_true.mp this.2 m0 (List.mem_cons_self m0 mrest)
    rw [hm0] at h2
    exact Bool.false_ne_true h2
  rw [if_neg hcond]
  obtain ⟨ht, hd⟩ :=
    takeWhile_append_stop Char.isDigit (natRepr n) m0 mrest (natRepr_all_digit n) hm0
  rw [ht, hd]
  cases hnr : natRepr n with
  | nil => exact absurd hnr (natRepr_ne_nil n)
  | cons d ds =>
    have hval : digitsVal (d :: ds) = n := by rw [← hnr, digitsVal_natRepr]
    show some (digitsVal (d :: ds), List.takeWhile isLowerUnd (m0 :: mrest)) = some (n, m0 :: mrest)
    rw [hval, takeWhile_of_all isLowerUnd (m0 :: mrest) hml]

theorem wbMod_cases (kind : List Char) :
    wbMod kind = [] ∨ wbMod kind = "im_".data ∨ wbMod kind = "cs_".data
      ∨ wbMod kind = "js_".data := by
  unfold wbMod
  split_ifs <;> simp

theorem isDigit_ne_slash (c : Char) (h : c.isDigit = true) : ¬ c = '/' := by
  intro heq
  rw [heq] at h
  exact absurd h (by decide)

theorem seg_no_slash (n : Nat) (kind : List Char) :
    ∀ c ∈ natRepr n ++ wbMod kind, (c != '/') = true := by
  intro c hc
  rw [bne_iff_ne]
  rcases List.mem_append.mp hc with h | h
  · exact isDigit_ne_slash c (natRepr_all_digit n c h)
  · rcases wbMod_cases kind with hm | hm | hm | hm <;> rw [hm] at h
    · cases h
    · rcases (show c = 'i' ∨ c = 'm' ∨ c = '_' by simpa using h) with rfl | rfl | rfl <;> decide
    · rcases (show c = 'c' ∨ c = 's' ∨ c = '_' by simpa using h) with rfl | rfl | rfl <;> decide
    · rcases (show c = 'j' ∨ c = 's' ∨ c = '_' by simpa using h) with rfl | rfl | rfl <;> decide

theorem splitWbPath_wb_path (n : Nat) (u kind : List Char) :
    splitWbPath (_wb_path n u kind) = some (natRepr n ++ wbMod kind, quoteL u) := by
  have hdrop : ∀ X : List Char, List.drop 5 ("/web/".data ++ X) = X := by
    intro X
    rw [show (5 : Nat) = ("/web/".data : List Char).length from rfl]
    exact List.drop_left _ _
  obtain ⟨ht, hd⟩ := takeWhile_append_stop (fun c => c != '/') (natRepr n ++ wbMod kind)
    '/' (quoteL u) (seg_no_slash n kind) (by decide)
  unfold _wb_path splitWbPath
  split
  · rw [List.append_assoc, List.append_assoc, hdrop, ← List.append_assoc, ht, hd]
    rfl
  · next hfalse =>
    refine absurd ?_ hfalse
    rw [List.append_assoc, List.append_assoc, List.isPrefixOf_iff_prefix]
    exact List.prefix_append _ _

/-- C5: path codec round-trip.  Encoding produces
`/web/{n}{mod}/{percent-encoded u}` with the modifier determined by the
referencing-context kind, and decoding that path — route split after
`/web/` at the first '/', leading digit run as job id, trailing `[a-z_]` run
as modifier, percent-decoding the remainder — recovers exactly `n`, the
modifier and `u` (stated for ASCII URLs; CPython quote/unquote agree with
this byte-level model there).  In particular
`encode(5, "https://x.com/a.png", image) = "/web/5im_/https%3A%2F%2Fx.com%2Fa.png"`
and decoding that path yields job id 5, modifier `im_` and the URL back. -/
theorem c5_path_codec_roundtrip :
    (∀ (n : Nat) (kind : List Char) (u : List Char),
      (∀ c ∈ u, c.toNat < 128) →
      splitWbPath (_wb_path n u kind) = some (natRepr n ++ wbMod kind, quoteL u)
      ∧ decodeSegment (natRepr n ++ wbMod kind) = some (n, wbMod kind)
      ∧ unquoteL (quoteL u) = u)
    ∧ _wb_path 5 "https://x.com/a.png".data "image".data
        = "/web/5im_/https%3A%2F%2Fx.com%2Fa.png".data
    ∧ decodeSegment "5im_".data = some (5, "im_".data)
    ∧ unquoteL "https%3A%2F%2Fx.com%2Fa.png".data = "https://x.com/a.png".data := by
  refine ⟨fun n kind u hu => ⟨splitWbPath_wb_path n u kind, ?_, unquoteL_quoteL u hu⟩,
    by decide, by decide, by decide⟩
  rcases wbMod_cases kind with hm | hm | hm | hm <;> rw [hm]
  · rw [List.append_nil]
    exact decodeSegment_natRepr n
  · exact decodeSegment_natRepr_append n 'i' "m_".data (by decide) (by decide)
  · exact decodeSegment_natRepr_append n 'c' "s_".data (by decide) (by decide)
  · exact decodeSegment_natRepr_append n 'j' "s_".data (by decide) (by decide)

/-- Witness for C5 at a concrete input: job id 12, image context, an ASCII URL. -/
theorem c5_path_codec_roundtrip_witness :
    splitWbPath (_wb_path 12 "https://a.com/i.png".data "image".data)
      = some (natRepr 12 ++ wbMod "image".data, quoteL "https://a.com/i.png".data)
    ∧ decodeSegment (natRepr 12 ++ wbMod "image".data) = some (12, wbMod "image".data)
    ∧ unquoteL (quoteL "https://a.com/i.png".data) = "https://a.com/i.png".data :=
  c5_path_codec_roundtrip.1 12 "image".data "https://a.com/i.png".data (by decide)

/-! ## Claim C3: the HTML rewriter's resolution rule -/

/-- C3 counterexample: the rewriter's resolution rule is NOT the same
same-host rule as extraction.  For original host `h.com` (hostnames are
port-stripped at replay time) and the anchor value `http://h.com:8080/x`:
extraction resolves the value to itself (`abs_url`) and its authority
`h.com:8080` does NOT equal the seed authority `h.com` (`same_domain` is
false, off-host), so the claim requires the attribute to be left
byte-for-byte unchanged; but `rewrite_links_in_html` compares only the
port-stripped hostname and rewrites the attribute to the codec path. -/
theorem c3_counterexample_port_ignored :
    abs_url "https://h.com/".data (some "http://h.com:8080/x".data)
      = some "http://h.com:8080/x".data
    ∧ (BasicArchiver.mk "https://h.com/".data 8 25 7).same_domain "http://h.com:8080/x".data
      = false
    ∧ rewrite_links_in_html "h.com".data 7
        [Element.mk TagName.a (some "http://h.com:8080/x".data) none []]
      = [Element.mk TagName.a (some "/web/7/http%3A%2F%2Fh.com%3A8080%2Fx".data) none []]
    ∧ (("/web/7/http%3A%2F%2Fh.com%3A8080%2Fx".data == "http://h.com:8080/x".data) = false) := by
  refine ⟨by decide, by decide, by decide, by decide⟩

/-- C3 amended: the rewriter replaces the `href` of every anchor/`<link>` and
the `src` of every img/script that resolves under the REWRITER'S OWN rule
(`_abs_url`: relative values resolve against the host root, and the host
comparison is on the port-stripped lowercased hostname — not extraction's
exact-authority rule) with the path-codec encoding under the context
modifier (stylesheet link→cs_, icon link→im_, img→im_, script→js_, anchors
and other links→none), leaving tag, rel and all non-resolving attribute
values (empty, '#', data:, mailto:, javascript:, hostname mismatch)
unchanged. -/
theorem c3_amended_rewriter_rule :
    (∀ (host : List Char) (job_id : Nat) (doc : List Element),
      rewrite_links_in_html host job_id doc = doc.map (fun el =>
        { el with
          href :=
            if el.tag = TagName.a ∨ el.tag = TagName.link then
              el.href.map (fun h =>
                match _abs_url host h with
                | some absu => _wb_path job_id absu (hrefKind el)
                | none => h)
            else el.href
          src :=
            if el.tag = TagName.img ∨ el.tag = TagName.script then
              el.src.map (fun s =>
                match _abs_url host s with
                | some absu => _wb_path job_id absu
                    (if el.tag = TagName.img then "image".data else "js".data)
                | none => s)
            else el.src }))
    ∧ (∀ (host v : List Char),
        ("#".data.isPrefixOf v || "data:".data.isPrefixOf v || "mailto:".data.isPrefixOf v
          || "javascript:".data.isPrefixOf v) = true → _abs_url host v = none)
    ∧ (∀ host : List Char, _abs_url host [] = none) := by
  refine ⟨?_, ?_, ?_⟩
  · intro host job_id doc
    rw [rewrite_links_in_html, rewriteHrefPass, rewriteSrcPass, List.map_map]
    refine List.map_congr_left ?_
    intro el _
    show (fun el =>
        if el.tag = TagName.img ∨ el.tag = TagName.script then
          match el.src with
          | some s =>
            match _abs_url host s with
            | some absu =>
              { el with src := some (_wb_path job_id absu
                  (if el.tag = TagName.img then "image".data else "js".data)) }
            | none => el
          | none => el
        else el)
      ((fun el =>
        if el.tag = TagName.a ∨ el.tag = TagName.link then
          match el.href with
          | some h =>
            match _abs_url host h with
            | some absu => { el with href := some (_wb_path job_id absu (hrefKind el)) }
            | none => el
          | none => el
        else el) el) = _
    rcases el with ⟨tag, href, src, rel⟩
    cases tag <;>
      rcases href with _ | h <;>
        rcases src with _ | s <;>
          simp [hrefKind] <;>
            first
            | rfl
            | (cases _abs_url host h <;> cases _abs_url host s <;> rfl)
            | (cases _abs_url host h <;> rfl)
            | (cases _abs_url host s <;> rfl)
  · intro host v hv
    rw [_abs_url]
    have : (decide (v = []) || "#".data.isPrefixOf v || "data:".data.isPrefixOf v
        || "mailto:".data.isPrefixOf v || "javascript:".data.isPrefixOf v) = true := by
      rcases Bool.or_eq_true_iff.mp hv with h | h
      · rcases Bool.or_eq_true_iff.mp h with h2 | h2
        · rcases Bool.or_eq_true_iff.mp h2 with h3 | h3 <;> simp [h3]
        · simp [h2]
      · simp [h]
    rw [if_pos this]
  · intro host
    rw [_abs_url]
    rw [if_pos (by decide)]

/-- Witness for C3 amended, at the spec's rewriter fixture: against host
`x.com` and job 7, a `mailto:` anchor and a `data:` image are unchanged and
`/about` is rewritten to the codec path. -/
theorem c3_amended_rewriter_rule_witness :
    rewrite_links_in_html "x.com".data 7
        [Element.mk TagName.a (some "mailto:x@y.com".data) none [],
         Element.mk TagName.a (some "/about".data) none [],
         Element.mk TagName.img none (some "data:image/png;base64,AAA".data) []]
      = [Element.mk TagName.a (some "mailto:x@y.com".data) none [],
         Element.mk TagName.a (some "/web/7/https%3A%2F%2Fx.com%2Fabout".data) none [],
         Element.mk TagName.img none (some "data:image/png;base64,AAA".data) []]
    ∧ _abs_url "x.com".data "mailto:x@y.com".data = none := by
  constructor
  · rw [c3_amended_rewriter_rule.1 "x.com".data 7]
    decide
  · exact c3_amended_rewriter_rule.2.1 "x.com".data "mailto:x@y.com".data (by decide)

/-! ## Replay route `GET /web/{job_and_mod}/{original_url:path}` (main.py `web_wayback`) -/

/-- The columns `_fetch_from_db` selects from `archived_resource`
(`content`, `content_type`, `host`); `content` and `content_type` are
nullable. -/
structure StoredRow where
  content : Option (List Nat)
  content_type : Option (List Char)
  host : List Char
deriving DecidableEq

/-- main.py `_normalize_bytes`: `None` becomes `b''`. -/
def normalizeBytes (b : Option (List Nat)) : List Nat := b.getD []

/-- Response body of the replay route: rewritten HTML (served as text/html)
or raw bytes under a media type. -/
inductive WebBody
  | html (doc : List Element)
  | raw (content : List Nat) (mediaType : List Char)
deriving DecidableEq

/-- Outcome of one replay request: 400, 404 (with the printed diagnostic
listing), 200, or an exception escaping the handler (FastAPI turns it into a
500 server error). -/
inductive WebResult
  | badRequest (detail : List Char)
  | notFound (detail : List Char) (printed : List (List Char))
  | ok (body : WebBody)
  | serverError
deriving DecidableEq

/-- Python `row['content_type'] or 'application/octet-stream'`. -/
def mediaTypeOr (ct : Option (List Char)) : List Char :=
  match ct with
  | some c => if c = [] then "application/octet-stream".data else c
  | none => "application/octet-stream".data

/-- main.py `web_wayback`.  `store` stands for `_fetch_from_db`; `listing`
for the diagnostic `SELECT link ... LIMIT 10` query run on a miss (its
`Except.error` case models that query raising — the handler has no
try/except around it, so the exception escapes); `parseHtml` for
`BeautifulSoup` parsing of the stored bytes decoded as UTF-8. -/
def web_wayback (job_and_mod : List Char) (original_url : List Char)
    (store : Nat → List Char → Option StoredRow)
    (listing : Except Unit (List (List Char)))
    (parseHtml : List Nat → List Element) : WebResult :=
  match decodeSegment job_and_mod with
  | none => WebResult.badRequest "Invalid job ID/modifier".data
  | some (job_id, _) =>
    match (urlsplitL (unquoteL original_url)).hostnameL with
    | none => WebResult.badRequest "URL must be absolute".data
    | some host =>
      if (urlsplitL (unquoteL original_url)).scheme = [] then
        WebResult.badRequest "URL must be absolute".data
      else
        match store job_id (unquoteL original_url) with
        | none =>
          match listing with
          | Except.error _ => WebResult.serverError
          | Except.ok urls =>
            WebResult.notFound ("Archived resource not found: ".data ++ unquoteL original_url) urls
        | some row =>
          if "text/html".data.isPrefixOf (lowerL (row.content_type.getD [])) then
            WebResult.ok (WebBody.html
              (rewrite_links_in_html host job_id (parseHtml (normalizeBytes row.content))))
          else
            WebResult.ok (WebBody.raw (normalizeBytes row.content) (mediaTypeOr row.content_type))

theorem decodeSegment_eq_none_iff (cs : List Char) :
    decodeSegment cs = none ↔ cs.takeWhile Char.isDigit = [] := by
  unfold decodeSegment
  by_cases h : cs ≠ [] ∧ cs.all Char.isDigit = true
  · rw [if_pos h]
    constructor
    · intro h2; cases h2
    · intro h2
      rw [takeWhile_of_all Char.isDigit cs (List.all_eq_true.mp h.2)] at h2
      exact absurd h2 h.1
  · rw [if_neg h]
    cases htw : cs.takeWhile Char.isDigit with
    | nil => simp
    | cons d ds => simp

/-- C9 amended: the replay route responds 400 iff the job segment has no
leading digit run or the percent-decoded URL lacks a scheme or host; 404
(with the diagnostic listing) iff both are well-formed but no stored row
matches; otherwise 200 — rewritten HTML when the lowercased stored content
type starts with `text/html`, else the raw stored bytes under the stored
content type with `application/octet-stream` substituted when the stored
type is absent or empty. -/
theorem c9_web_wayback_responses (seg url : List Char)
    (store : Nat → List Char → Option StoredRow) (l : List (List Char))
    (parseHtml : List Nat → List Element) :
    (decodeSegment seg = none ↔ seg.takeWhile Char.isDigit = [])
    ∧ (decodeSegment seg = none →
        web_wayback seg url store (Except.ok l) parseHtml
          = WebResult.badRequest "Invalid job ID/modifier".data)
    ∧ (∀ jm, decodeSegment seg = some jm →
        ((urlsplitL (unquoteL url)).hostnameL = none →
          web_wayback seg url store (Except.ok l) parseHtml
            = WebResult.badRequest "URL must be absolute".data)
        ∧ ((urlsplitL (unquoteL url)).scheme = [] →
          web_wayback seg url store (Except.ok l) parseHtml
            = WebResult.badRequest "URL must be absolute".data)
        ∧ (∀ host, (urlsplitL (unquoteL url)).hostnameL = some host →
            (urlsplitL (unquoteL url)).scheme ≠ [] →
            (store jm.1 (unquoteL url) = none →
              web_wayback seg url store (Except.ok l) parseHtml
                = WebResult.notFound
                    ("Archived resource not found: ".data ++ unquoteL url) l)
            ∧ (∀ row, store jm.1 (unquoteL url) = some row →
                web_wayback seg url store (Except.ok l) parseHtml
                  = WebResult.ok (
                      if "text/html".data.isPrefixOf (lowerL (row.content_type.getD [])) then
                        WebBody.html (rewrite_links_in_html host jm.1
                          (parseHtml (normalizeBytes row.content)))
                      else
                        WebBody.raw (normalizeBytes row.content)
                          (mediaTypeOr row.content_type))))) := by
  refine ⟨decodeSegment_eq_none_iff seg, ?_, ?_⟩
  · intro h
    simp only [web_wayback, h]
  · intro jm hseg
    refine ⟨?_, ?_, ?_⟩
    · intro hhost
      simp only [web_wayback, hseg, hhost]
    · intro hscheme
      cases hh : (urlsplitL (unquoteL url)).hostnameL with
      | none => simp only [web_wayback, hseg, hh]
      | some host =>
        simp only [web_wayback, hseg, hh]
        rw [if_pos hscheme]
    · intro host hhost hscheme
      constructor
      · intro hstore
        simp only [web_wayback, hseg, hhost, hstore]
        rw [if_neg hscheme]
      · intro row hstore
        simp only [web_wayback, hseg, hhost, hstore]
        rw [if_neg hscheme]
        split <;> rfl

/-- Witness for C9 amended at concrete inputs: segment `5`, URL
`https://a.com/x`; an empty store yields the 404 with the listing printed, a
store holding an HTML row yields the rewritten-HTML 200, and segment `x5`
(no leading digits) yields the 400. -/
theorem c9_web_wayback_responses_witness :
    web_wayback "5".data (quoteL "https://a.com/x".data) (fun _ _ => none)
        (Except.ok ["https://a.com/other".data]) (fun _ => [])
      = WebResult.notFound ("Archived resource not found: ".data ++ "https://a.com/x".data)
          ["https://a.com/other".data]
    ∧ web_wayback "5".data (quoteL "https://a.com/x".data)
        (fun _ _ => some (StoredRow.mk (some [60]) (some "text/html".data) "a.com".data))
        (Except.ok []) (fun _ => [])
      = WebResult.ok (WebBody.html (rewrite_links_in_html "a.com".data 5 []))
    ∧ web_wayback "x5".data (quoteL "https://a.com/x".data) (fun _ _ => none)
        (Except.ok []) (fun _ => [])
      = WebResult.badRequest "Invalid job ID/modifier".data := by
  refine ⟨?_, ?_, ?_⟩
  · have h := (((c9_web_wayback_responses "5".data (quoteL "https://a.com/x".data)
      (fun _ _ => none) ["https://a.com/other".data] (fun _ => [])).2.2 (5, [])
        (by decide)).2.2 "a.com".data (by decide) (by decide)).1 rfl
    rw [h]
    decide
  · have h := (((c9_web_wayback_responses "5".data (quoteL "https://a.com/x".data)
      (fun _ _ => some (StoredRow.mk (some [60]) (some "text/html".data) "a.com".data))
      [] (fun _ => [])).2.2 (5, [])
        (by decide)).2.2 "a.com".data (by decide) (by decide)).2
      (StoredRow.mk (some [60]) (some "text/html".data) "a.com".data) rfl
    rw [h]
    decide
  · exact (c9_web_wayback_responses "x5".data (quoteL "https://a.com/x".data)
      (fun _ _ => none) [] (fun _ => [])).2.1 (by decide)

/-- C9 counterexample: a stored row whose `content_type` column is NULL is
served as 200 with media type `application/octet-stream`, not "the stored
content type" (which is absent) as the claim states. -/
theorem c9_counterexample_null_content_type :
    web_wayback "5".data (quoteL "https://a.com/x".data)
        (fun _ _ => some (StoredRow.mk (some [1, 2, 3]) none "a.com".data))
        (Except.ok []) (fun _ => [])
      = WebResult.ok (WebBody.raw [1, 2, 3] "application/octet-stream".data)
    ∧ (StoredRow.mk (some [1, 2, 3]) none "a.com".data).content_type = none := by
  refine ⟨by decide, rfl⟩

/-- C4 counterexample: on a miss (well-formed segment `5` and absolute URL
`https://a.com/x`, empty store), an error raised by the diagnostic listing
query is NOT swallowed: the request ends in a server error, not 404 —
while the same request with a succeeding listing ends in 404. -/
theorem c4_counterexample_listing_error_escapes :
    web_wayback "5".data (quoteL "https://a.com/x".data) (fun _ _ => none)
        (Except.error ()) (fun _ => [])
      = WebResult.serverError
    ∧ web_wayback "5".data (quoteL "https://a.com/x".data) (fun _ _ => none)
        (Except.ok ["https://a.com/other".data]) (fun _ => [])
      = WebResult.notFound ("Archived resource not found: ".data ++ "https://a.com/x".data)
          ["https://a.com/other".data] := by
  refine ⟨by decide, by decide⟩

/-- C4 amended: when a well-formed replay request misses, the handler runs
the diagnostic listing query with no try/except: if the query succeeds the
request ends 404 with the listing printed; if it raises, the exception
propagates and the request ends in a server error instead of 404. -/
theorem c4_amended_listing_error_propagates (seg url : List Char)
    (store : Nat → List Char → Option StoredRow) (l : List (List Char))
    (parseHtml : List Nat → List Element) (jm : Nat × List Char) (host : List Char)
    (hseg : decodeSegment seg = some jm)
    (hhost : (urlsplitL (unquoteL url)).hostnameL = some host)
    (hscheme : (urlsplitL (unquoteL url)).scheme ≠ [])
    (hmiss : store jm.1 (unquoteL url) = none) :
    web_wayback seg url store (Except.error ()) parseHtml = WebResult.serverError
    ∧ web_wayback seg url store (Except.ok l) parseHtml
      = WebResult.notFound ("Archived resource not found: ".data ++ unquoteL url) l := by
  constructor
  · simp only [web_wayback, hseg, hhost, hmiss]
    rw [if_neg hscheme]
  · simp only [web_wayback, hseg, hhost, hmiss]
    rw [if_neg hscheme]

/-- Witness for C4 amended at the concrete miss of
`c4_counterexample_listing_error_escapes`. -/
theorem c4_amended_listing_error_propagates_witness :
    web_wayback "7".data (quoteL "https://b.org/p".data) (fun _ _ => none)
        (Except.error ()) (fun _ => [])
      = WebResult.serverError
    ∧ web_wayback "7".data (quoteL "https://b.org/p".data) (fun _ _ => none)
        (Except.ok []) (fun _ => [])
      = WebResult.notFound ("Archived resource not found: ".data ++ unquoteL (quoteL "https://b.org/p".data)) [] :=
  c4_amended_listing_error_propagates "7".data (quoteL "https://b.org/p".data)
    (fun _ _ => none) [] (fun _ => []) (7, []) "b.org".data
    (by decide) (by decide) (by decide) rfl

/-! ## POST /archive (main.py `trigger_archive`, schemas.py `ArchiveRequest`) -/

/-- schemas.py `ArchiveRequest`: `url`, `max_pages: int | None = 25`,
`num_workers: int | None = 8`. -/
structure ArchiveRequest where
  url : List Char
  max_pages : Option Int
  num_workers : Option Int
deriving DecidableEq

/-- An `ArchiveRequest` built from a body carrying only `url`
(the pydantic defaults 25 and 8 apply). -/
def ArchiveRequest.ofUrl (u : List Char) : ArchiveRequest := ⟨u, some 25, some 8⟩

/-- The JSON dict returned by `trigger_archive`. -/
structure TriggerResponse where
  message : List Char
  status : List Char
  job_id : Nat
  max_pages : Option Int
  num_workers : Option Int
deriving DecidableEq

/-- The externally visible operations an archive-API handler can perform:
inserting an `archive_jobs` row, or creating/scheduling a `BasicArchiver`
crawl session for a URL. -/
inductive ApiEffect
  | insertJob
  | startCrawl (url : List Char) (maxPages numWorkers : Nat)
deriving DecidableEq

/-- main.py `trigger_archive` (success path): INSERT one `archive_jobs` row
(returning `newJobId`), then return the acknowledgment dict.  The handler
body contains no other operation: in particular it never constructs or
schedules a `BasicArchiver`, so its effect trace is exactly
`[ApiEffect.insertJob]`. -/
def trigger_archive (req : ArchiveRequest) (newJobId : Nat) :
    TriggerResponse × List ApiEffect :=
  ({ message := "Archive triggered for ".data ++ req.url
     status := "started".data
     job_id := newJobId
     max_pages := req.max_pages
     num_workers := req.num_workers },
   [ApiEffect.insertJob])

/-- C1 evidence: for every request (and at the concrete failing input
`{url: "https://example.com"}` with the defaults maxPages=25, numWorkers=8),
the handler's effect trace is exactly one job-row insert — it contains no
`startCrawl` effect, so no crawl of the URL is started or pending after the
acknowledgment, although the response says status `started`. -/
theorem c1_trigger_archive_schedules_no_crawl :
    (∀ (req : ArchiveRequest) (jobId : Nat),
      (trigger_archive req jobId).2 = [ApiEffect.insertJob])
    ∧ trigger_archive (ArchiveRequest.ofUrl "https://example.com".data) 1
      = (TriggerResponse.mk ("Archive triggered for ".data ++ "https://example.com".data)
          "started".data 1 (some 25) (some 8), [ApiEffect.insertJob])
    ∧ (ArchiveRequest.ofUrl "https://example.com".data).max_pages = some 25
    ∧ (ArchiveRequest.ofUrl "https://example.com".data).num_workers = some 8 := by
  exact ⟨fun req jobId => rfl, rfl, rfl, rfl⟩

/-! ## Catch-all fallback route `GET /{path:path}` (main.py `general_fallback`) -/

/-- The externally visible operations of the fallback handler: reading the
Referer header, and one store lookup. -/
inductive FbEffect
  | readReferer
  | dbFetch (jobId : Nat) (url : List Char)
deriving DecidableEq

inductive FbResult
  | notFound (detail : List Char)
  | ok (content : List Nat) (mediaType : List Char)
deriving DecidableEq

/-- Match of `re.search(r'/web/(\d+)[^/]*/', s)` anchored at the start:
`/web/`, then a nonempty digit run (group 1), then — via `[^/]*` and the
final `/` — any later '/' in the remainder. -/
def matchWebJobAt (cs : List Char) : Option Nat :=
  if "/web/".data.isPrefixOf cs then
    match (cs.drop 5).takeWhile Char.isDigit with
    | [] => none
    | d :: ds =>
      if ((cs.drop 5).dropWhile Char.isDigit).contains '/' then some (digitsVal (d :: ds))
      else none
  else none

/-- `re.search(r'/web/(\d+)[^/]*/', s)`: leftmost match. -/
def searchWebJob : List Char → Option Nat
  | [] => none
  | c :: rest =>
    match matchWebJobAt (c :: rest) with
    | some n => some n
    | none => searchWebJob rest

/-- Match of `re.search(r'https?%3A%2F%2F([^/%\?]+)', s)` anchored at the
start: `http`, an optional `s`, the encoded `://`, then a nonempty run of
characters outside `/%?` (group 1).  The empty-`s?` alternative can never
follow a literal 's' (the next literal is '%'), so taking the 's' greedily
is exact. -/
def matchRefHostAt (cs : List Char) : Option (List Char) :=
  if "http".data.isPrefixOf cs then
    if "%3A%2F%2F".data.isPrefixOf
        (if (cs.drop 4).take 1 = ['s'] then cs.drop 5 else cs.drop 4) then
      match ((if (cs.drop 4).take 1 = ['s'] then cs.drop 5 else cs.drop 4).drop 9).takeWhile
          (fun c => c != '/' && c != '%' && c != '?') with
      | [] => none
      | d :: ds => some (d :: ds)
    else none
  else none

/-- `re.search(r'https?%3A%2F%2F([^/%\?]+)', s)`: leftmost match. -/
def searchRefHost : List Char → Option (List Char)
  | [] => none
  | c :: rest =>
    match matchRefHostAt (c :: rest) with
    | some h => some h
    | none => searchRefHost rest

/-- main.py `general_fallback`.  Reserved prefixes 404 immediately;
otherwise the Referer header (default '') is consulted for a job id and a
percent-encoded host, the probable URL `https://{host}/{path}` is looked up,
and the row (or a 404) is returned.  The second component is the trace of
externally visible operations performed. -/
def general_fallback (path : List Char) (referer : Option (List Char))
    (store : Nat → List Char → Option StoredRow) : FbResult × List FbEffect :=
  if ("archived-sites".data.isPrefixOf path || "archive".data.isPrefixOf path
      || "web/".data.isPrefixOf path) then
    (FbResult.notFound "Not found".data, [])
  else
    match searchWebJob (referer.getD []) with
    | none => (FbResult.notFound ("Asset not found: /".data ++ path), [FbEffect.readReferer])
    | some job_id =>
      match searchRefHost (referer.getD []) with
      | none => (FbResult.notFound "Cannot determine host".data, [FbEffect.readReferer])
      | some hostEnc =>
        match store job_id ("https://".data ++ unquoteL hostEnc ++ '/' :: path) with
        | none =>
          (FbResult.notFound ("Archived asset not found: /".data ++ path),
           [FbEffect.readReferer,
            FbEffect.dbFetch job_id ("https://".data ++ unquoteL hostEnc ++ '/' :: path)])
        | some row =>
          (FbResult.ok (normalizeBytes row.content) (mediaTypeOr row.content_type),
           [FbEffect.readReferer,
            FbEffect.dbFetch job_id ("https://".data ++ unquoteL hostEnc ++ '/' :: path)])

/-- C10: a request whose path starts with `archived-sites`, `archive` or
`web/` is answered 404 by the catch-all fallback immediately, with an empty
effect trace: the Referer header is never consulted and no store lookup is
performed. -/
theorem c10_general_fallback_reserved_prefixes (path : List Char)
    (referer : Option (List Char)) (store : Nat → List Char → Option StoredRow)
    (h : ("archived-sites".data.isPrefixOf path || "archive".data.isPrefixOf path
      || "web/".data.isPrefixOf path) = true) :
    general_fallback path referer store = (FbResult.notFound "Not found".data, []) := by
  unfold general_fallback
  rw [if_pos h]

/-- Witness for C10 at a concrete input: path `web/5/x` with a Referer that
would otherwise match, and a store that would otherwise answer. -/
theorem c10_general_fallback_reserved_prefixes_witness :
    general_fallback "web/5/x".data (some "/web/5/https%3A%2F%2Fa.com%2F".data)
        (fun _ _ => some (StoredRow.mk (some [1]) none "a.com".data))
      = (FbResult.notFound "Not found".data, []) :=
  c10_general_fallback_reserved_prefixes "web/5/x".data
    (some "/web/5/https%3A%2F%2Fa.com%2F".data)
    (fun _ _ => some (StoredRow.mk (some [1]) none "a.com".data)) (by decide)

end WebArchiver
